import Mathlib

/-!
# Verification of the always-listen audio pipeline

Shallow embedding of the core of `apps/app/src/audio.rs` and
`apps/app/src/always_listen.rs`:

* `convert_to_mono` and `resample` (stateless audio transforms);
* `AudioBufferManager` (circular pre-roll buffer plus growing recording buffer);
* `VadEngine` (energy VAD with exponential smoothing and debounce counters);
* `finalize_recording` and the per-frame dispatch of `processing_loop`.

Modelling conventions:

* `f32`/`f64` sample values and exact arithmetic on them are modelled by `ℚ`;
  the one operation that leaves the rationals — the RMS square root inside
  `VadEngine::process` — is modelled by `Real.sqrt`, so the smoothed energy
  lives in `ℝ`.
* Rust vector indexing that can panic (the ring-buffer write
  `self.pre_roll[self.pre_roll_pos] = sample`) is modelled in `Option`:
  `none` is a panic.
* `crossbeam_channel` bounded channels are modelled by an explicit buffer;
  `Sender::send` returns an error when the channel is disconnected and
  *blocks* when the channel is full (see `Channel.send`).
* `Instant` timestamps are modelled by an abstract `ℕ` tick that is threaded
  through but never inspected.
-/

/-! ## audio.rs: convert_to_mono and resample -/

/-- `slice::chunks(n)`: split a list into consecutive chunks of `n` elements,
the last chunk possibly shorter.  (Rust panics for `n = 0`; the model returns
`[]` in that unreachable case.) -/
def chunksOf (n : ℕ) (l : List α) : List (List α) :=
  if l.isEmpty then []
  else if n = 0 then []
  else l.take n :: chunksOf n (l.drop n)
termination_by l.length
decreasing_by
  rename_i h
  simp only [List.isEmpty_iff] at *
  have hl : 0 < l.length := List.length_pos.mpr (by tauto)
  have hn : 0 < n := Nat.pos_of_ne_zero (by tauto)
  simpa using Nat.sub_lt hl hn

/-- `audio.rs::convert_to_mono`: average interleaved channels into mono. -/
def convert_to_mono (data : List ℚ) (channels : ℕ) : List ℚ :=
  if channels = 1 then data
  else (chunksOf channels data).map (fun chunk => chunk.sum / (channels : ℚ))

/-- `audio.rs::resample`: linear-interpolation resampler.  The output length
is the `as usize` truncation (= floor, values are nonnegative) of
`data.len() as f64 * ratio`. -/
def resample (data : List ℚ) (from_rate to_rate : ℕ) : List ℚ :=
  if from_rate = to_rate then data
  else
    let ratio : ℚ := (to_rate : ℚ) / (from_rate : ℚ)
    let new_len : ℕ := ⌊(data.length : ℚ) * ratio⌋.toNat
    (List.range new_len).map (fun (i : ℕ) =>
      let src_idx : ℚ := (i : ℚ) / ratio
      let idx : ℕ := ⌊src_idx⌋.toNat
      let frac : ℚ := src_idx - (idx : ℚ)
      if idx + 1 < data.length then
        data.getD idx 0 * (1 - frac) + data.getD (idx + 1) 0 * frac
      else if idx < data.length then
        data.getD idx 0
      else 0)

/-! ## always_listen.rs: AudioBufferManager -/

/-- `always_listen.rs::AudioBufferManager`.  The sample type is a parameter
(the Rust code stores `f32` but never computes with the samples). -/
structure AudioBufferManager (α : Type) where
  pre_roll : List α
  pre_roll_pos : ℕ
  pre_roll_full : Bool
  recording : List α
  sample_rate : ℕ
  pre_roll_capacity : ℕ
deriving DecidableEq

namespace AudioBufferManager

/-- `AudioBufferManager::new`. -/
def new (α : Type) [Zero α] (sample_rate pre_roll_duration_ms : ℕ) :
    AudioBufferManager α :=
  let pre_roll_capacity := sample_rate * pre_roll_duration_ms / 1000
  ⟨List.replicate pre_roll_capacity 0, 0, false, [], sample_rate, pre_roll_capacity⟩

/-- One iteration of the loop in `push_to_pre_roll`: write the sample at the
current position (a panic — `none` — if the position is out of bounds of the
vector), advance, wrap and mark full when the capacity is reached. -/
def pushSample (m : AudioBufferManager α) (x : α) : Option (AudioBufferManager α) :=
  if m.pre_roll_pos < m.pre_roll.length then
    let pre := m.pre_roll.set m.pre_roll_pos x
    let pos := m.pre_roll_pos + 1
    if m.pre_roll_capacity ≤ pos then
      some { m with pre_roll := pre, pre_roll_pos := 0, pre_roll_full := true }
    else
      some { m with pre_roll := pre, pre_roll_pos := pos }
  else none

/-- `AudioBufferManager::push_to_pre_roll`. -/
def push_to_pre_roll (m : AudioBufferManager α) (samples : List α) :
    Option (AudioBufferManager α) :=
  samples.foldlM pushSample m

/-- A sequence of `push_to_pre_roll` calls, one per slice. -/
def pushCalls (m : AudioBufferManager α) (slices : List (List α)) :
    Option (AudioBufferManager α) :=
  slices.foldlM push_to_pre_roll m

/-- The ordered (oldest-first) pre-roll content, as read out by
`start_recording`: `[pos..] ++ [..pos]` when full, `[..pos]` otherwise. -/
def orderedPreRoll (m : AudioBufferManager α) : List α :=
  if m.pre_roll_full then
    m.pre_roll.drop m.pre_roll_pos ++ m.pre_roll.take m.pre_roll_pos
  else
    m.pre_roll.take m.pre_roll_pos

/-- `AudioBufferManager::start_recording`: returns the ordered pre-roll
content and seeds the recording buffer (cleared, then appended) with it. -/
def start_recording (m : AudioBufferManager α) : List α × AudioBufferManager α :=
  let result := m.orderedPreRoll
  (result, { m with recording := result })

/-- `AudioBufferManager::push_to_recording`. -/
def push_to_recording (m : AudioBufferManager α) (samples : List α) :
    AudioBufferManager α :=
  { m with recording := m.recording ++ samples }

/-- `AudioBufferManager::finalize`: `mem::take` of the recording buffer. -/
def finalize (m : AudioBufferManager α) : List α × AudioBufferManager α :=
  (m.recording, { m with recording := [] })

/-- `AudioBufferManager::reset`: zero the ring buffer in place, clear the
position, the full flag and the recording buffer. -/
def reset [Zero α] (m : AudioBufferManager α) : AudioBufferManager α :=
  { m with pre_roll_pos := 0, pre_roll_full := false, recording := [],
           pre_roll := m.pre_roll.map (fun _ => 0) }

/-- `AudioBufferManager::recording_duration` (seconds). -/
def recording_duration (m : AudioBufferManager α) : ℚ :=
  (m.recording.length : ℚ) / (m.sample_rate : ℚ)

end AudioBufferManager

/-- The last `n` elements of a list. -/
def lastN (n : ℕ) (l : List α) : List α :=
  (l.reverse.take n).reverse

/-! ## always_listen.rs: VadEngine -/

/-- `always_listen.rs::VadEngine`.  Sample values and the stored
configuration are `ℚ`; the smoothed energy is `ℝ` because it accumulates
square roots. -/
structure VadEngine where
  threshold : ℚ
  frame_size : ℕ
  voice_frames : ℕ
  silence_frames : ℕ
  smoothed_energy : ℝ
  smoothing_alpha : ℚ

namespace VadEngine

/-- `VadEngine::new`. -/
def new (threshold : ℚ) (frame_size : ℕ) : VadEngine :=
  ⟨threshold, frame_size, 0, 0, 0, 3/10⟩

/-- The mean-square energy over the first `frame_size` samples of a frame,
as computed at the top of `VadEngine::process`. -/
def frameEnergy (v : VadEngine) (frame : List ℚ) : ℚ :=
  ((frame.take v.frame_size).map (fun s => s * s)).sum / (v.frame_size : ℚ)

/-- The EMA update of `VadEngine::process`:
`alpha * rms + (1 - alpha) * smoothed_energy` with `rms = sqrt(energy)`. -/
noncomputable def newSmoothed (v : VadEngine) (frame : List ℚ) : ℝ :=
  (v.smoothing_alpha : ℝ) * Real.sqrt ((v.frameEnergy frame : ℚ) : ℝ) +
    (1 - (v.smoothing_alpha : ℝ)) * v.smoothed_energy

/-- `VadEngine::process`: rejects short frames, otherwise computes RMS energy
over the first `frame_size` samples, updates the EMA, classifies against the
threshold, and updates the consecutive-frame counters (voice resets the
silence counter; silence increments it and clears the voice counter once it
exceeds 10).  Returns the updated engine together with
`(is_voice, probability)`. -/
noncomputable def process (v : VadEngine) (frame : List ℚ) :
    VadEngine × Bool × ℝ :=
  if frame.length < v.frame_size then (v, false, 0)
  else if (v.threshold : ℝ) < v.newSmoothed frame then
    ({ v with smoothed_energy := v.newSmoothed frame,
              voice_frames := v.voice_frames + 1,
              silence_frames := 0 }, true,
      min (v.newSmoothed frame / (v.threshold : ℝ)) 1)
  else if 10 < v.silence_frames + 1 then
    ({ v with smoothed_energy := v.newSmoothed frame,
              silence_frames := v.silence_frames + 1,
              voice_frames := 0 }, false,
      min (v.newSmoothed frame / (v.threshold : ℝ)) 1)
  else
    ({ v with smoothed_energy := v.newSmoothed frame,
              silence_frames := v.silence_frames + 1 }, false,
      min (v.newSmoothed frame / (v.threshold : ℝ)) 1)

/-- `VadEngine::has_sustained_voice`. -/
def has_sustained_voice (v : VadEngine) (min_frames : ℕ) : Bool :=
  min_frames ≤ v.voice_frames

/-- `VadEngine::has_sustained_silence`. -/
def has_sustained_silence (v : VadEngine) (min_frames : ℕ) : Bool :=
  min_frames ≤ v.silence_frames

/-- `VadEngine::reset`. -/
def reset (v : VadEngine) : VadEngine :=
  { v with voice_frames := 0, silence_frames := 0, smoothed_energy := 0 }

/-- Run `process` over a sequence of frames, keeping the engine state. -/
noncomputable def processList (v : VadEngine) (fs : List (List ℚ)) : VadEngine :=
  fs.foldl (fun w f => (w.process f).1) v

end VadEngine

/-- A run of frames each of full length and each classified as silence
(`is_voice = false`) by `process` in the state current when it is processed. -/
def SilentRun : VadEngine → List (List ℚ) → Prop
  | _, [] => True
  | v, f :: fs =>
      v.frame_size ≤ f.length ∧ (v.process f).2.1 = false ∧
        SilentRun (v.process f).1 fs

/-! ## always_listen.rs: state, channel, finalize_recording -/

/-- `always_listen.rs::AlwaysListenState`.  `Instant` is an abstract tick. -/
inductive ALState
  | Listening
  | Detecting (since : ℕ)
  | Recording (since : ℕ)
  | Processing
  | Paused
deriving DecidableEq

/-- A bounded `crossbeam_channel` as seen from its `Sender`: capacity, the
queued messages, and whether the receiving side is still connected. -/
structure Channel where
  cap : ℕ
  buf : List (List ℚ)
  connected : Bool
deriving DecidableEq

/-- Possible outcomes of one `Sender::send` call. -/
inductive SendResult
  | ok (c : Channel)
  | disconnectedErr
  | blocked
deriving DecidableEq

/-- Models `crossbeam_channel::Sender::send` on a bounded channel: an `Err`
when the channel is disconnected; otherwise the message is enqueued when
there is room, and the call **blocks** (the sending thread waits) when the
channel is full. -/
def Channel.send (c : Channel) (v : List ℚ) : SendResult :=
  if c.connected = false then .disconnectedErr
  else if c.buf.length < c.cap then .ok { c with buf := c.buf ++ [v] }
  else .blocked

/-- The state left behind by a completed `finalize_recording` call:
the mutated buffer manager, VAD, shared state and result channel, plus what
was emitted on the channel (if anything) and whether the send-failure error
was logged. -/
structure FinalizeDone where
  mgr : AudioBufferManager ℚ
  vad : VadEngine
  st : ALState
  chan : Channel
  emitted : Option (List ℚ)
  errLogged : Bool

/-- `finalize_recording` either completes, or blocks forever inside
`result_tx.send` (full, still-connected channel). -/
inductive FinalizeOutcome
  | done (r : FinalizeDone)
  | blocked (audio : List ℚ)

/-- `always_listen.rs::finalize_recording`: take the recording; discard it
(log only) when shorter than 1600 samples; otherwise send it on the result
channel (logging an error if the send fails); in every completed path set the
shared state back to `Listening` and reset the buffer manager and the VAD. -/
def finalize_recording (mgr : AudioBufferManager ℚ) (vad : VadEngine)
    (chan : Channel) : FinalizeOutcome :=
  if mgr.finalize.1.length < 1600 then
    .done ⟨mgr.finalize.2.reset, vad.reset, .Listening, chan, none, false⟩
  else
    match chan.send mgr.finalize.1 with
    | .blocked => .blocked mgr.finalize.1
    | .disconnectedErr =>
        .done ⟨mgr.finalize.2.reset, vad.reset, .Listening, chan, none, true⟩
    | .ok c =>
        .done ⟨mgr.finalize.2.reset, vad.reset, .Listening, c,
          some mgr.finalize.1, false⟩

/-! ## always_listen.rs: processing_loop frame dispatch -/

/-- `always_listen.rs::AlwaysListenConfig` (durations in ms, rates fixed at
16 kHz downstream). -/
structure AlwaysListenConfig where
  pre_roll_duration_ms : ℕ
  min_speech_duration_ms : ℕ
  post_silence_duration_ms : ℕ
  vad_threshold : ℚ
  max_utterance_seconds : ℚ
  cooldown_ms : ℕ
  frame_samples : ℕ

/-- `processing_loop`'s derived constant
`((min_speech_duration_ms as f32 / 1000.0) * 16000) as usize / frame_samples`. -/
def min_voice_frames (cfg : AlwaysListenConfig) : ℕ :=
  ⌊(cfg.min_speech_duration_ms : ℚ) / 1000 * 16000⌋.toNat / cfg.frame_samples

/-- `processing_loop`'s derived constant for the post-silence threshold. -/
def silence_frames_threshold (cfg : AlwaysListenConfig) : ℕ :=
  ⌊(cfg.post_silence_duration_ms : ℚ) / 1000 * 16000⌋.toNat / cfg.frame_samples

/-- The worker-owned mutable state of `processing_loop`: the shared
`AlwaysListenState`, the buffer manager, the VAD and the result channel. -/
structure LoopState where
  st : ALState
  mgr : AudioBufferManager ℚ
  vad : VadEngine
  chan : Channel

/-- Observable actions of one frame dispatch (which source lines ran). -/
inductive Event
  | pushedPreRoll
  | startedRecording
  | pushedRecording
  | finalized
  | dropped
deriving DecidableEq

/-- A frame dispatch that does not complete: the worker blocked inside a
channel send, or a buffer index panicked. -/
inductive StepErr
  | blocked
  | panicked
deriving DecidableEq

/-- One iteration of the inner `while sample_buffer.len() >= frame_samples`
loop of `processing_loop`: run the VAD on the frame, then dispatch on
`current_state` — which is the state **read once when the chunk was
received**, passed here as `cur`, not re-read per frame. -/
noncomputable def stepFrame (cfg : AlwaysListenConfig) (now : ℕ) (cur : ALState)
    (s : LoopState) (frame : List ℚ) : Except StepErr (LoopState × List Event) :=
  match cur with
  | .Listening =>
    match s.mgr.push_to_pre_roll frame with
    | none => .error .panicked
    | some mgr1 =>
      if ((s.vad.process frame).1).has_sustained_voice (min_voice_frames cfg) then
        .ok (⟨.Recording now, mgr1.start_recording.2.push_to_recording frame,
              (s.vad.process frame).1, s.chan⟩,
             [.pushedPreRoll, .startedRecording, .pushedRecording])
      else
        .ok (⟨s.st, mgr1, (s.vad.process frame).1, s.chan⟩, [.pushedPreRoll])
  | .Recording _ =>
    if cfg.max_utterance_seconds <
        (s.mgr.push_to_recording frame).recording_duration then
      match finalize_recording (s.mgr.push_to_recording frame)
          ((s.vad.process frame).1) s.chan with
      | .blocked _ => .error .blocked
      | .done r => .ok (⟨r.st, r.mgr, r.vad, r.chan⟩, [.pushedRecording, .finalized])
    else if ((s.vad.process frame).1).has_sustained_silence
        (silence_frames_threshold cfg) then
      match finalize_recording (s.mgr.push_to_recording frame)
          ((s.vad.process frame).1) s.chan with
      | .blocked _ => .error .blocked
      | .done r => .ok (⟨r.st, r.mgr, r.vad, r.chan⟩, [.pushedRecording, .finalized])
    else
      .ok (⟨s.st, s.mgr.push_to_recording frame, (s.vad.process frame).1, s.chan⟩,
           [.pushedRecording])
  | .Processing => .ok (⟨s.st, s.mgr, (s.vad.process frame).1, s.chan⟩, [.dropped])
  | .Paused => .ok (⟨s.st, s.mgr, (s.vad.process frame).1, s.chan⟩, [])
  | .Detecting _ => .ok (⟨s.st, s.mgr, (s.vad.process frame).1, s.chan⟩, [])

/-- Drain every complete frame from the accumulated sample buffer, processing
each under the same chunk-start state `cur`.  Returns the final state, the
leftover samples, and the concatenated events.  (With `frame_samples = 0` the
Rust loop would never terminate; the model stops instead — unreachable for
the configurations considered here.) -/
noncomputable def processFrames (cfg : AlwaysListenConfig) (now : ℕ) (cur : ALState)
    (s : LoopState) (buf : List ℚ) :
    Except StepErr (LoopState × List ℚ × List Event) :=
  if _h : cfg.frame_samples ≠ 0 ∧ cfg.frame_samples ≤ buf.length then
    match stepFrame cfg now cur s (buf.take cfg.frame_samples) with
    | .error e => .error e
    | .ok (s', evs) =>
      match processFrames cfg now cur s' (buf.drop cfg.frame_samples) with
      | .error e => .error e
      | .ok (s'', rest, evs') => .ok (s'', rest, evs ++ evs')
  else .ok (s, buf, [])
termination_by buf.length
decreasing_by
  simp only [List.length_drop]
  omega

/-- Handling of one received chunk in `processing_loop`: the chunk is
appended to the sample buffer, `current_state` is read **once**, and then
every complete frame is dispatched under that snapshot. -/
noncomputable def processChunk (cfg : AlwaysListenConfig) (now : ℕ) (s : LoopState)
    (pending chunk : List ℚ) : Except StepErr (LoopState × List ℚ × List Event) :=
  processFrames cfg now s.st s (pending ++ chunk)

/-- The events of a completed chunk dispatch. -/
def chunkEvents : Except StepErr (LoopState × List ℚ × List Event) → List Event
  | .ok r => r.2.2
  | .error _ => []

/-! ## Helper lemmas: lastN and list surgery -/

lemma lastN_of_length_le {l : List α} {n : ℕ} (h : l.length ≤ n) : lastN n l = l := by
  rw [lastN, List.take_of_length_le (by simpa using h), List.reverse_reverse]

lemma lastN_eq_drop (n : ℕ) (l : List α) : lastN n l = l.drop (l.length - n) := by
  rw [lastN, List.reverse_take]
  simp

lemma lastN_append_lastN (n : ℕ) (a q : List α) :
    lastN n (lastN n a ++ q) = lastN n (a ++ q) := by
  unfold lastN
  rw [List.reverse_append, List.reverse_reverse, List.reverse_append]
  congr 1
  rw [List.take_append_eq_append_take, List.take_append_eq_append_take, List.take_take]
  congr 2
  omega

lemma set_eq_take_cons_drop (B : List α) (p : ℕ) (x : α) (hp : p < B.length) :
    B.set p x = B.take p ++ x :: B.drop (p + 1) := by
  rw [List.set_eq_take_append_cons_drop]
  simp [hp]

lemma take_set_snoc (B : List α) (p : ℕ) (x : α) (hp : p < B.length) :
    (B.set p x).take (p + 1) = B.take p ++ [x] := by
  rw [set_eq_take_cons_drop B p x hp, List.take_append_eq_append_take,
    List.take_of_length_le (le_of_eq (List.length_take ..) |>.trans (by omega)),
    List.length_take]
  have h1 : p + 1 - p ⊓ B.length = 1 := by omega
  rw [h1]
  simp

lemma drop_set_succ (B : List α) (p : ℕ) (x : α) (hp : p < B.length) :
    (B.set p x).drop (p + 1) = B.drop (p + 1) := by
  rw [set_eq_take_cons_drop B p x hp, List.drop_append_eq_append_drop,
    List.drop_eq_nil_of_le (by rw [List.length_take]; omega), List.length_take]
  have h1 : p + 1 - p ⊓ B.length = 1 := by omega
  rw [h1]
  simp

lemma rot_drop_one (B : List α) (p : ℕ) (hp : p < B.length) :
    (B.drop p ++ B.take p).drop 1 = B.drop (p + 1) ++ B.take p := by
  rw [List.drop_append_eq_append_drop]
  have h1 : 1 - (B.drop p).length = 0 := by rw [List.length_drop]; omega
  rw [h1, List.drop_zero]
  congr 1
  rw [List.drop_drop]

lemma lastN_rot_snoc (B : List α) (p C : ℕ) (x : α) (hlen : B.length = C)
    (hp : p < C) :
    lastN C ((B.drop p ++ B.take p) ++ [x]) = (B.drop (p + 1) ++ B.take p) ++ [x] := by
  have hordlen : (B.drop p ++ B.take p).length = C := by
    rw [List.length_append, List.length_drop, List.length_take]
    omega
  rw [lastN_eq_drop]
  have htot : ((B.drop p ++ B.take p) ++ [x]).length = C + 1 := by
    rw [List.length_append, hordlen]
    rfl
  rw [htot]
  have h1 : C + 1 - C = 1 := by omega
  rw [h1, List.drop_append_eq_append_drop]
  have h2 : 1 - (B.drop p ++ B.take p).length = 0 := by omega
  rw [h2, List.drop_zero, rot_drop_one B p (by omega)]

/-! ## Helper lemmas: ring-buffer invariant -/

lemma orderedPreRoll_length_le (m : AudioBufferManager α)
    (hlen : m.pre_roll.length = m.pre_roll_capacity)
    (hpos : m.pre_roll_pos < m.pre_roll_capacity) :
    m.orderedPreRoll.length ≤ m.pre_roll_capacity := by
  rw [AudioBufferManager.orderedPreRoll]
  split
  · rw [List.length_append, List.length_drop, List.length_take]
    omega
  · rw [List.length_take]
    omega

/-- Effect of writing one sample into a well-formed ring buffer: the write is
in bounds, the structural invariant is preserved, and the logical
(oldest-first) content gains `x` at the end, truncated to the last
`capacity` samples. -/
lemma pushSample_step (m : AudioBufferManager α) (x : α)
    (hlen : m.pre_roll.length = m.pre_roll_capacity)
    (hpos : m.pre_roll_pos < m.pre_roll_capacity) :
    ∃ m', m.pushSample x = some m' ∧
      m'.pre_roll.length = m'.pre_roll_capacity ∧
      m'.pre_roll_pos < m'.pre_roll_capacity ∧
      m'.pre_roll_capacity = m.pre_roll_capacity ∧
      m'.recording = m.recording ∧
      m'.sample_rate = m.sample_rate ∧
      m'.orderedPreRoll = lastN m.pre_roll_capacity (m.orderedPreRoll ++ [x]) := by
  have hp : m.pre_roll_pos < m.pre_roll.length := by rw [hlen]; exact hpos
  by_cases hw : m.pre_roll_capacity ≤ m.pre_roll_pos + 1
  · -- wrap: position + 1 reaches capacity, so reset to 0 and mark full
    have hpc : m.pre_roll_pos + 1 = m.pre_roll_capacity := by omega
    refine ⟨{ m with pre_roll := m.pre_roll.set m.pre_roll_pos x, pre_roll_pos := 0, pre_roll_full := true }, ?_, ?_, ?_, rfl, rfl, rfl, ?_⟩
    · rw [AudioBufferManager.pushSample, if_pos hp, if_pos hw]
    · simpa using hlen
    · show 0 < m.pre_roll_capacity
      omega
    · have hset : m.pre_roll.set m.pre_roll_pos x =
          m.pre_roll.take m.pre_roll_pos ++ [x] := by
        have h := take_set_snoc m.pre_roll m.pre_roll_pos x hp
        rwa [List.take_of_length_le (by rw [List.length_set]; omega)] at h
      show (if (true : Bool) then _ ++ _ else _) = _
      rw [if_pos rfl]
      show (m.pre_roll.set m.pre_roll_pos x).drop 0 ++
        (m.pre_roll.set m.pre_roll_pos x).take 0 = _
      rw [List.drop_zero, List.take_zero, List.append_nil,
        AudioBufferManager.orderedPreRoll]
      rcases Bool.eq_false_or_eq_true m.pre_roll_full with hfb | hfb
      · rw [hfb, if_pos rfl, lastN_rot_snoc m.pre_roll m.pre_roll_pos
          m.pre_roll_capacity x hlen hpos, hset]
        have hdropC : m.pre_roll.drop (m.pre_roll_pos + 1) = [] :=
          List.drop_eq_nil_of_le (by omega)
        rw [hdropC, List.nil_append]
      · rw [hfb, if_neg Bool.false_ne_true, hset, lastN_of_length_le]
        rw [List.length_append, List.length_take]
        simp only [List.length_cons, List.length_nil]
        omega
  · -- no wrap: position advances by one
    refine ⟨{ m with pre_roll := m.pre_roll.set m.pre_roll_pos x, pre_roll_pos := m.pre_roll_pos + 1 }, ?_, ?_, ?_, rfl, rfl, rfl, ?_⟩
    · rw [AudioBufferManager.pushSample, if_pos hp, if_neg hw]
    · simpa using hlen
    · show m.pre_roll_pos + 1 < m.pre_roll_capacity
      omega
    · simp only [AudioBufferManager.orderedPreRoll]
      rcases Bool.eq_false_or_eq_true m.pre_roll_full with hfb | hfb
      · rw [hfb, if_pos rfl, if_pos rfl,
          drop_set_succ m.pre_roll m.pre_roll_pos x hp,
          take_set_snoc m.pre_roll m.pre_roll_pos x hp,
          lastN_rot_snoc m.pre_roll m.pre_roll_pos m.pre_roll_capacity x hlen hpos,
          List.append_assoc]
      · rw [hfb, if_neg Bool.false_ne_true, if_neg Bool.false_ne_true,
          take_set_snoc m.pre_roll m.pre_roll_pos x hp, lastN_of_length_le]
        rw [List.length_append, List.length_take]
        simp only [List.length_cons, List.length_nil]
        omega

/-- Folding a whole sample sequence into a well-formed ring buffer succeeds
and leaves the last `capacity` samples of `old content ++ pushed` as the
ordered content. -/
lemma pushSampleList_inv (Q : List α) :
    ∀ m : AudioBufferManager α,
      m.pre_roll.length = m.pre_roll_capacity →
      m.pre_roll_pos < m.pre_roll_capacity →
      ∃ m', Q.foldlM AudioBufferManager.pushSample m = some m' ∧
        m'.pre_roll.length = m'.pre_roll_capacity ∧
        m'.pre_roll_pos < m'.pre_roll_capacity ∧
        m'.pre_roll_capacity = m.pre_roll_capacity ∧
        m'.recording = m.recording ∧
        m'.sample_rate = m.sample_rate ∧
        m'.orderedPreRoll = lastN m.pre_roll_capacity (m.orderedPreRoll ++ Q) := by
  induction Q with
  | nil =>
    intro m h1 h2
    exact ⟨m, rfl, h1, h2, rfl, rfl, rfl, by
      rw [List.append_nil, lastN_of_length_le (orderedPreRoll_length_le m h1 h2)]⟩
  | cons x Q ih =>
    intro m h1 h2
    obtain ⟨m1, hpush, hl1, hp1, hc1, hr1, hs1, hcont1⟩ := pushSample_step m x h1 h2
    obtain ⟨m', hfold, hl', hp', hc', hr', hs', hcont'⟩ := ih m1 hl1 hp1
    refine ⟨m', ?_, hl', hp', by rw [hc', hc1], by rw [hr', hr1],
      by rw [hs', hs1], ?_⟩
    · rw [List.foldlM_cons, hpush]
      exact hfold
    · rw [hcont', hcont1, hc1, lastN_append_lastN, List.append_assoc]
      rfl

lemma foldlM_append_option {β γ : Type} (f : γ → β → Option γ) (a : List β) :
    ∀ (b : List β) (init : γ),
      (a ++ b).foldlM f init = a.foldlM f init >>= fun m => b.foldlM f m := by
  induction a with
  | nil => intro b init; rfl
  | cons x xs ih =>
    intro b init
    rw [List.cons_append, List.foldlM_cons, List.foldlM_cons]
    cases f init x with
    | none => rfl
    | some m1 => exact ih b m1

/-- A sequence of `push_to_pre_roll` calls is the single sample-level fold of
the concatenation of all pushed slices. -/
lemma pushCalls_eq_join (slices : List (List α)) :
    ∀ m : AudioBufferManager α,
      AudioBufferManager.pushCalls m slices =
        slices.flatten.foldlM AudioBufferManager.pushSample m := by
  induction slices with
  | nil => intro m; rfl
  | cons s rest ih =>
    intro m
    show (s :: rest).foldlM AudioBufferManager.push_to_pre_roll m = _
    rw [List.foldlM_cons]
    have hjoin : (s :: rest).flatten = s ++ rest.flatten := by simp
    rw [hjoin, foldlM_append_option]
    show (s.foldlM AudioBufferManager.pushSample m) >>= _ =
      (s.foldlM AudioBufferManager.pushSample m) >>= _
    cases s.foldlM AudioBufferManager.pushSample m with
    | none => rfl
    | some m1 => exact ih m1

/-! ## Helper lemmas: chunksOf -/

lemma chunksOf_nil (n : ℕ) : chunksOf n ([] : List α) = [] := by
  rw [chunksOf]; simp

lemma chunksOf_eq_cons (n : ℕ) (l : List α) (h0 : n ≠ 0) (hl : l ≠ []) :
    chunksOf n l = l.take n :: chunksOf n (l.drop n) := by
  rw [chunksOf]
  simp [List.isEmpty_iff, hl, h0]

/-- A list of length `k * c` splits into exactly `k` chunks, chunk `j` being
`(drop (j*c)).take c`. -/
lemma chunksOf_full (c : ℕ) (hc : 1 ≤ c) :
    ∀ (k : ℕ) (data : List α), data.length = k * c →
      chunksOf c data = (List.range k).map (fun j => (data.drop (j * c)).take c)
  | 0, data, hlen => by
      have : data = [] := List.length_eq_zero.mp (by simpa using hlen)
      subst this
      simp [chunksOf_nil]
  | k + 1, data, hlen => by
      have hne : data ≠ [] := by
        intro h
        subst h
        simp at hlen
        omega
      rw [chunksOf_eq_cons c data (by omega) hne]
      have hdrop : (data.drop c).length = k * c := by
        simp [List.length_drop, hlen, Nat.succ_mul]
      rw [chunksOf_full c hc k (data.drop c) hdrop, List.range_succ_eq_map,
        List.map_cons, List.map_map]
      congr 1
      · simp
      · congr 1
        funext j
        simp only [Function.comp_apply, List.drop_drop]
        congr 2
        rw [Nat.succ_mul]
        omega

/-! ## Claim theorems: resample and convert_to_mono (C4, C8, C9) -/

lemma getD_map_range {β : Type} [Inhabited β] (n i : ℕ) (f : ℕ → β) (d : β)
    (h : i < n) : ((List.range n).map f).getD i d = f i := by
  have hlen : i < ((List.range n).map f).length := by simpa using h
  rw [List.getD_eq_getElem _ _ hlen, List.getElem_map, List.getElem_range]

/-- **C9**: `resample(x, r, r) == x` exactly, via the early-return identity
branch. -/
theorem resample_identity (x : List ℚ) (r : ℕ) : resample x r r = x := by
  simp [resample]

/-- **C4, counterexample**: the claim says the output length is
`round(N * R2 / R1)`; for a 3-sample input resampled from 16000 Hz to
8000 Hz the code produces `(3 * 0.5) as usize = 1` sample while
`round(1.5) = 2`. -/
theorem resample_round_counterexample :
    (resample [1, 2, 3] 16000 8000).length = 1 ∧
      (round ((3 : ℚ) * 8000 / 16000)).toNat = 2 := by
  constructor
  · rw [resample, if_neg (by decide)]
    rw [List.length_map, List.length_range]
    have hfl : ⌊(([1, 2, 3] : List ℚ).length : ℚ) *
        (((8000 : ℕ) : ℚ) / ((16000 : ℕ) : ℚ))⌋ = 1 := by
      rw [Int.floor_eq_iff] <;> norm_num
    rw [hfl]
    rfl
  · rw [round_eq]
    have hfl : ⌊(3 : ℚ) * 8000 / 16000 + 1 / 2⌋ = 2 := by
      rw [Int.floor_eq_iff] <;> norm_num
    rw [hfl]
    rfl

/-- **C4 (amended)**: for positive source rate and distinct rates, `resample`
produces `⌊N * R2 / R1⌋` samples (truncation, **not** rounding), and output
sample `i` is the linear interpolation of the floor/ceiling source samples at
fractional source position `i / (R2/R1)`, falling back to the last sample (or
0) past the input end.  (`0 < R1` keeps the model inside the domain where the
Rust `f64` arithmetic is finite.) -/
theorem resample_length_floor_interp (data : List ℚ) (R1 R2 : ℕ)
    (h1 : 0 < R1) (hne : R1 ≠ R2) :
    (resample data R1 R2).length = ⌊(data.length : ℚ) * R2 / R1⌋.toNat ∧
    ∀ i, i < ⌊(data.length : ℚ) * R2 / R1⌋.toNat →
      (resample data R1 R2).getD i 0 =
        (if ⌊(i : ℚ) / ((R2 : ℚ) / (R1 : ℚ))⌋.toNat + 1 < data.length then
          data.getD ⌊(i : ℚ) / ((R2 : ℚ) / (R1 : ℚ))⌋.toNat 0 *
              (1 - ((i : ℚ) / ((R2 : ℚ) / (R1 : ℚ)) -
                (⌊(i : ℚ) / ((R2 : ℚ) / (R1 : ℚ))⌋.toNat : ℚ))) +
            data.getD (⌊(i : ℚ) / ((R2 : ℚ) / (R1 : ℚ))⌋.toNat + 1) 0 *
              ((i : ℚ) / ((R2 : ℚ) / (R1 : ℚ)) -
                (⌊(i : ℚ) / ((R2 : ℚ) / (R1 : ℚ))⌋.toNat : ℚ))
        else if ⌊(i : ℚ) / ((R2 : ℚ) / (R1 : ℚ))⌋.toNat < data.length then
          data.getD ⌊(i : ℚ) / ((R2 : ℚ) / (R1 : ℚ))⌋.toNat 0
        else 0) := by
  have hmul : (data.length : ℚ) * ((R2 : ℚ) / (R1 : ℚ)) =
      (data.length : ℚ) * R2 / R1 := (mul_div_assoc _ _ _).symm
  constructor
  · rw [resample, if_neg hne]
    rw [List.length_map, List.length_range, hmul]
  · intro i hi
    have hi2 : i < ⌊(data.length : ℚ) * ((R2 : ℚ) / (R1 : ℚ))⌋.toNat := by
      rw [hmul]; exact hi
    rw [resample, if_neg hne]
    exact getD_map_range _ i _ 0 hi2

/-- **C4, witness**: the amended theorem at a concrete input. -/
theorem resample_length_floor_interp_witness :
    0 < 16000 ∧ 16000 ≠ 8000 ∧
      ((resample [1, 2, 3] 16000 8000).length =
          ⌊(([1, 2, 3] : List ℚ).length : ℚ) * 8000 / 16000⌋.toNat ∧
        ∀ i, i < ⌊(([1, 2, 3] : List ℚ).length : ℚ) * 8000 / 16000⌋.toNat →
          (resample [1, 2, 3] 16000 8000).getD i 0 =
            (if ⌊(i : ℚ) / ((8000 : ℚ) / (16000 : ℚ))⌋.toNat + 1 <
                ([1, 2, 3] : List ℚ).length then
              ([1, 2, 3] : List ℚ).getD
                  ⌊(i : ℚ) / ((8000 : ℚ) / (16000 : ℚ))⌋.toNat 0 *
                  (1 - ((i : ℚ) / ((8000 : ℚ) / (16000 : ℚ)) -
                    (⌊(i : ℚ) / ((8000 : ℚ) / (16000 : ℚ))⌋.toNat : ℚ))) +
                ([1, 2, 3] : List ℚ).getD
                  (⌊(i : ℚ) / ((8000 : ℚ) / (16000 : ℚ))⌋.toNat + 1) 0 *
                  ((i : ℚ) / ((8000 : ℚ) / (16000 : ℚ)) -
                    (⌊(i : ℚ) / ((8000 : ℚ) / (16000 : ℚ))⌋.toNat : ℚ))
            else if ⌊(i : ℚ) / ((8000 : ℚ) / (16000 : ℚ))⌋.toNat <
                ([1, 2, 3] : List ℚ).length then
              ([1, 2, 3] : List ℚ).getD
                ⌊(i : ℚ) / ((8000 : ℚ) / (16000 : ℚ))⌋.toNat 0
            else 0)) :=
  ⟨by decide, by decide,
    resample_length_floor_interp [1, 2, 3] 16000 8000 (by decide) (by decide)⟩

/-- **C8**: `convert_to_mono` is the identity for channel count 1, and for
channel count `c ≥ 2` with input length `k * c` it produces the `k`
per-frame arithmetic means (frame `j` being the `c` interleaved samples at
positions `j*c .. j*c + c - 1`). -/
theorem convert_to_mono_mean :
    (∀ data : List ℚ, convert_to_mono data 1 = data) ∧
    ∀ (c k : ℕ) (data : List ℚ), 2 ≤ c → data.length = k * c →
      (convert_to_mono data c).length = k ∧
      ∀ j, j < k →
        (convert_to_mono data c).getD j 0 =
          ((data.drop (j * c)).take c).sum / (c : ℚ) := by
  constructor
  · intro data
    simp [convert_to_mono]
  · intro c k data hc hlen
    have hc1 : c ≠ 1 := by omega
    rw [convert_to_mono, if_neg hc1, chunksOf_full c (by omega) k data hlen]
    constructor
    · simp
    · intro j hj
      have hjlen : j < (((List.range k).map
          (fun j => (data.drop (j * c)).take c)).map
            (fun chunk => chunk.sum / (c : ℚ))).length := by
        simpa using hj
      rw [List.getD_eq_getElem _ _ hjlen, List.getElem_map, List.getElem_map,
        List.getElem_range]

/-- **C8, witness**: stereo input `[1, 2, 3, 4]` (frames `(1,2)` and
`(3,4)`). -/
theorem convert_to_mono_mean_witness :
    2 ≤ 2 ∧ ([1, 2, 3, 4] : List ℚ).length = 2 * 2 ∧
      ((convert_to_mono [1, 2, 3, 4] 2).length = 2 ∧
        ∀ j, j < 2 →
          (convert_to_mono [1, 2, 3, 4] 2).getD j 0 =
            ((([1, 2, 3, 4] : List ℚ).drop (j * 2)).take 2).sum / (2 : ℚ)) :=
  ⟨by decide, by decide,
    convert_to_mono_mean.2 2 2 [1, 2, 3, 4] (by decide) (by decide)⟩

/-! ## Claim theorems: ring buffer (C2, C10) -/

/-- **C2**: after any sequence of `push_to_pre_roll` calls on a fresh manager
of capacity `C = rate*ms/1000 ≥ 1`, `start_recording()` returns exactly the
pushed samples when fewer than `C` were pushed, exactly the last `C` pushed
samples (oldest first) when more than `C` were pushed, and in both cases the
returned sequence is identical to the seeded recording buffer. -/
theorem start_recording_returns_last_capacity (rate ms : ℕ)
    (slices : List (List ℚ)) (hC : 1 ≤ rate * ms / 1000) :
    ∃ m', AudioBufferManager.pushCalls (AudioBufferManager.new ℚ rate ms) slices =
        some m' ∧
      ((slices.flatten.length < rate * ms / 1000 →
          m'.start_recording.1 = slices.flatten) ∧
        (rate * ms / 1000 < slices.flatten.length →
          m'.start_recording.1 =
            slices.flatten.drop (slices.flatten.length - rate * ms / 1000)) ∧
        m'.start_recording.1 = m'.start_recording.2.recording) := by
  have h1 : (AudioBufferManager.new ℚ rate ms).pre_roll.length =
      (AudioBufferManager.new ℚ rate ms).pre_roll_capacity := by
    simp [AudioBufferManager.new]
  have h2 : (AudioBufferManager.new ℚ rate ms).pre_roll_pos <
      (AudioBufferManager.new ℚ rate ms).pre_roll_capacity := by
    simpa [AudioBufferManager.new] using hC
  obtain ⟨m', hfold, _, _, _, _, _, hcont⟩ :=
    pushSampleList_inv slices.flatten (AudioBufferManager.new ℚ rate ms) h1 h2
  have hcap : (AudioBufferManager.new ℚ rate ms).pre_roll_capacity =
      rate * ms / 1000 := rfl
  have hord0 : (AudioBufferManager.new ℚ rate ms).orderedPreRoll = [] := by
    simp [AudioBufferManager.new, AudioBufferManager.orderedPreRoll]
  have hstart : m'.start_recording.1 = m'.orderedPreRoll := rfl
  refine ⟨m', ?_, ?_, ?_, ?_⟩
  · rw [pushCalls_eq_join]
    exact hfold
  · intro hlt
    rw [hstart, hcont, hord0, List.nil_append, hcap,
      lastN_of_length_le (le_of_lt hlt)]
  · intro hgt
    rw [hstart, hcont, hord0, List.nil_append, hcap, lastN_eq_drop]
  · rfl

/-- **C2, witness**: capacity 2 (rate 2, 1000 ms), pushing `[1, 2, 3]`. -/
theorem start_recording_returns_last_capacity_witness :
    1 ≤ 2 * 1000 / 1000 ∧
      ∃ m', AudioBufferManager.pushCalls (AudioBufferManager.new ℚ 2 1000)
          [[1, 2, 3]] = some m' ∧
        (([[(1 : ℚ), 2, 3]].flatten.length < 2 * 1000 / 1000 →
            m'.start_recording.1 = [[(1 : ℚ), 2, 3]].flatten) ∧
          (2 * 1000 / 1000 < [[(1 : ℚ), 2, 3]].flatten.length →
            m'.start_recording.1 =
              [[(1 : ℚ), 2, 3]].flatten.drop
                ([[(1 : ℚ), 2, 3]].flatten.length - 2 * 1000 / 1000)) ∧
          m'.start_recording.1 = m'.start_recording.2.recording) :=
  ⟨by norm_num,
    start_recording_returns_last_capacity 2 1000 [[1, 2, 3]] (by norm_num)⟩

/-- The structural ring-buffer invariant of C10: the write position is
strictly inside the capacity and the backing vector has exactly the
capacity's length. -/
def BufInv {α : Type} (m : AudioBufferManager α) : Prop :=
  m.pre_roll_pos < m.pre_roll_capacity ∧ m.pre_roll.length = m.pre_roll_capacity

/-- **C10**: for capacity ≥ 1 the invariant holds after construction and is
preserved by every operation; under it `push_to_pre_roll` always writes in
bounds (never panics, i.e. never returns `none`).  With capacity 0
(`rate*ms/1000 = 0`), `push_to_pre_roll` on a non-empty slice panics. -/
theorem buffer_manager_safety :
    (∀ rate ms : ℕ, 1 ≤ rate * ms / 1000 →
      BufInv (AudioBufferManager.new ℚ rate ms)) ∧
    (∀ (m : AudioBufferManager ℚ) (s : List ℚ), BufInv m →
      ∃ m', m.push_to_pre_roll s = some m' ∧ BufInv m') ∧
    (∀ m : AudioBufferManager ℚ, BufInv m → BufInv m.start_recording.2) ∧
    (∀ (m : AudioBufferManager ℚ) (s : List ℚ), BufInv m →
      BufInv (m.push_to_recording s)) ∧
    (∀ m : AudioBufferManager ℚ, BufInv m → BufInv m.finalize.2) ∧
    (∀ m : AudioBufferManager ℚ, BufInv m → BufInv m.reset) ∧
    (∀ rate ms : ℕ, rate * ms / 1000 = 0 → ∀ (x : ℚ) (xs : List ℚ),
      (AudioBufferManager.new ℚ rate ms).push_to_pre_roll (x :: xs) = none) := by
  refine ⟨?_, ?_, ?_, ?_, ?_, ?_, ?_⟩
  · intro rate ms h
    exact ⟨by simpa [AudioBufferManager.new] using h, by simp [AudioBufferManager.new]⟩
  · intro m s h
    obtain ⟨m', hsome, hl, hp, _, _, _, _⟩ := pushSampleList_inv s m h.2 h.1
    exact ⟨m', hsome, hp, hl⟩
  · intro m h
    exact h
  · intro m s h
    exact h
  · intro m h
    exact h
  · intro m h
    obtain ⟨hp, hl⟩ := h
    refine ⟨?_, ?_⟩
    · show 0 < m.pre_roll_capacity
      omega
    · show (m.pre_roll.map _).length = m.pre_roll_capacity
      rw [List.length_map]
      exact hl
  · intro rate ms h0 x xs
    show (x :: xs).foldlM AudioBufferManager.pushSample _ = none
    rw [List.foldlM_cons]
    have hnone : (AudioBufferManager.new ℚ rate ms).pushSample x = none := by
      have hcond : ¬ ((AudioBufferManager.new ℚ rate ms).pre_roll_pos <
          (AudioBufferManager.new ℚ rate ms).pre_roll.length) := by
        simp [AudioBufferManager.new, h0]
      rw [AudioBufferManager.pushSample, if_neg hcond]
    rw [hnone]
    rfl

/-- **C10, witness**: the invariant for the default 16 kHz / 500 ms manager,
and the capacity-0 panic for rate 0. -/
theorem buffer_manager_safety_witness :
    BufInv (AudioBufferManager.new ℚ 16000 500) ∧
      (AudioBufferManager.new ℚ 0 1000).push_to_pre_roll [(1 : ℚ)] = none :=
  ⟨buffer_manager_safety.1 16000 500 (by norm_num),
    buffer_manager_safety.2.2.2.2.2.2 0 1000 (by norm_num) 1 []⟩

/-! ## Helper lemmas: channel sends and finalize_recording -/

lemma send_blocked (c : Channel) (v : List ℚ) (hconn : c.connected = true)
    (hfull : c.cap ≤ c.buf.length) : c.send v = .blocked := by
  rw [Channel.send, if_neg (by simp [hconn]), if_neg (by omega)]

lemma send_disconnected (c : Channel) (v : List ℚ)
    (hconn : c.connected = false) : c.send v = .disconnectedErr := by
  rw [Channel.send, if_pos hconn]

lemma send_ok (c : Channel) (v : List ℚ) (hconn : c.connected = true)
    (hroom : c.buf.length < c.cap) :
    c.send v = .ok { c with buf := c.buf ++ [v] } := by
  rw [Channel.send, if_neg (by simp [hconn]), if_pos hroom]

lemma finalize_recording_short (mgr : AudioBufferManager ℚ) (vad : VadEngine)
    (chan : Channel) (h : mgr.recording.length < 1600) :
    finalize_recording mgr vad chan =
      .done ⟨mgr.finalize.2.reset, vad.reset, .Listening, chan, none, false⟩ := by
  have h' : mgr.finalize.1.length < 1600 := h
  rw [finalize_recording, if_pos h']

lemma finalize_recording_send (mgr : AudioBufferManager ℚ) (vad : VadEngine)
    (chan : Channel) (h : ¬ mgr.recording.length < 1600) :
    finalize_recording mgr vad chan =
      match chan.send mgr.finalize.1 with
      | .blocked => .blocked mgr.finalize.1
      | .disconnectedErr =>
          .done ⟨mgr.finalize.2.reset, vad.reset, .Listening, chan, none, true⟩
      | .ok c =>
          .done ⟨mgr.finalize.2.reset, vad.reset, .Listening, c,
            some mgr.finalize.1, false⟩ := by
  have h' : ¬ mgr.finalize.1.length < 1600 := h
  rw [finalize_recording, if_neg h']

/-! ## Claim theorems: finalize_recording (C5, C1) -/

/-- **C5**: a finalize on a recording shorter than 1600 samples emits nothing
(channel untouched, `emitted = none`), sets the state back to `Listening`,
and resets the VAD and the buffer manager; and any utterance that *is*
emitted by a completed finalize has at least 1600 samples. -/
theorem short_utterance_never_emitted :
    (∀ (mgr : AudioBufferManager ℚ) (vad : VadEngine) (chan : Channel),
      mgr.recording.length < 1600 →
      finalize_recording mgr vad chan =
        .done ⟨mgr.finalize.2.reset, vad.reset, .Listening, chan, none, false⟩) ∧
    (∀ (mgr : AudioBufferManager ℚ) (vad : VadEngine) (chan : Channel)
      (r : FinalizeDone) (u : List ℚ),
      finalize_recording mgr vad chan = .done r → r.emitted = some u →
      1600 ≤ u.length) := by
  constructor
  · exact finalize_recording_short
  · intro mgr vad chan r u hdone hemit
    by_cases h : mgr.recording.length < 1600
    · rw [finalize_recording_short mgr vad chan h] at hdone
      injection hdone with h'
      rw [← h'] at hemit
      simp at hemit
    · rw [finalize_recording_send mgr vad chan h] at hdone
      rcases hsend : chan.send mgr.finalize.1 with c | _ | _ <;>
        rw [hsend] at hdone
      · injection hdone with h'
        rw [← h'] at hemit
        injection hemit with h2
        rw [← h2]
        show 1600 ≤ mgr.recording.length
        omega
      · injection hdone with h'
        rw [← h'] at hemit
        simp at hemit
      · simp at hdone

/-- **C5, witness**: a 3-sample recording is discarded without touching the
result channel. -/
theorem short_utterance_never_emitted_witness :
    (⟨List.replicate 4 (0 : ℚ), 0, false, [1, 2, 3], 16000, 4⟩ :
        AudioBufferManager ℚ).recording.length < 1600 ∧
      finalize_recording
          ⟨List.replicate 4 (0 : ℚ), 0, false, [1, 2, 3], 16000, 4⟩
          (VadEngine.new (15/1000) 480) ⟨10, [], true⟩ =
        .done ⟨(⟨List.replicate 4 (0 : ℚ), 0, false, [1, 2, 3], 16000, 4⟩ :
            AudioBufferManager ℚ).finalize.2.reset,
          (VadEngine.new (15/1000) 480).reset, .Listening, ⟨10, [], true⟩,
          none, false⟩ := by
  have hlen : (⟨List.replicate 4 (0 : ℚ), 0, false, [1, 2, 3], 16000, 4⟩ :
      AudioBufferManager ℚ).recording.length < 1600 := by
    simp
  exact ⟨hlen, short_utterance_never_emitted.1 _ _ _ hlen⟩

/-- **C1, counterexample**: with a ≥1600-sample utterance and a *full* but
still-connected result channel, `finalize_recording`'s `send` **blocks** the
worker (outcome `.blocked`); the utterance is neither dropped nor is an error
logged, contradicting the claimed non-blocking drop semantics. -/
theorem full_channel_send_blocks_counterexample :
    finalize_recording
        ⟨List.replicate 4 (0 : ℚ), 0, false, List.replicate 1600 (0 : ℚ), 16000, 4⟩
        (VadEngine.new (15/1000) 480)
        ⟨10, List.replicate 10 [], true⟩ =
      .blocked (List.replicate 1600 (0 : ℚ)) := by
  have h : ¬ ((⟨List.replicate 4 (0 : ℚ), 0, false, List.replicate 1600 (0 : ℚ),
      16000, 4⟩ : AudioBufferManager ℚ).recording.length < 1600) := by
    show ¬ ((List.replicate 1600 (0 : ℚ)).length < 1600)
    rw [List.length_replicate]
    omega
  have hfull : (⟨10, List.replicate 10 [], true⟩ : Channel).cap ≤
      (⟨10, List.replicate 10 [], true⟩ : Channel).buf.length := by
    show (10 : ℕ) ≤ (List.replicate 10 ([] : List ℚ)).length
    rw [List.length_replicate]
  rw [finalize_recording_send _ _ _ h, send_blocked _ _ rfl hfull]
  rfl

/-- **C1 (amended)**: for an utterance of at least 1600 samples, the push
onto the result channel follows `crossbeam_channel::Sender::send` semantics:
it **blocks while the channel is full** (and connected); only when the
channel is disconnected does the send fail, in which case the utterance is
dropped and the error is logged without blocking; with room available the
utterance is enqueued.  In every completed path the worker returns to
`Listening` and resets the VAD and buffers. -/
theorem result_send_blocks_when_full (mgr : AudioBufferManager ℚ)
    (vad : VadEngine) (chan : Channel) (hlen : 1600 ≤ mgr.recording.length) :
    (chan.connected = true → chan.cap ≤ chan.buf.length →
      finalize_recording mgr vad chan = .blocked mgr.recording) ∧
    (chan.connected = false →
      finalize_recording mgr vad chan =
        .done ⟨mgr.finalize.2.reset, vad.reset, .Listening, chan, none, true⟩) ∧
    (chan.connected = true → chan.buf.length < chan.cap →
      finalize_recording mgr vad chan =
        .done ⟨mgr.finalize.2.reset, vad.reset, .Listening,
          { chan with buf := chan.buf ++ [mgr.recording] },
          some mgr.recording, false⟩) := by
  have h : ¬ mgr.recording.length < 1600 := by omega
  refine ⟨?_, ?_, ?_⟩
  · intro hconn hfull
    rw [finalize_recording_send mgr vad chan h, send_blocked chan _ hconn hfull]
    rfl
  · intro hconn
    rw [finalize_recording_send mgr vad chan h, send_disconnected chan _ hconn]
  · intro hconn hroom
    rw [finalize_recording_send mgr vad chan h, send_ok chan _ hconn hroom]
    rfl

/-- **C1, witness**: the amended behaviour at a concrete full channel. -/
theorem result_send_blocks_when_full_witness :
    1600 ≤ (⟨List.replicate 4 (0 : ℚ), 0, false, List.replicate 1600 (0 : ℚ),
        16000, 4⟩ : AudioBufferManager ℚ).recording.length ∧
      (⟨10, List.replicate 10 [], true⟩ : Channel).connected = true ∧
      (⟨10, List.replicate 10 [], true⟩ : Channel).cap ≤
        (⟨10, List.replicate 10 [], true⟩ : Channel).buf.length ∧
      finalize_recording
          ⟨List.replicate 4 (0 : ℚ), 0, false, List.replicate 1600 (0 : ℚ), 16000, 4⟩
          (VadEngine.new (15/1000) 480)
          ⟨10, List.replicate 10 [], true⟩ =
        .blocked (⟨List.replicate 4 (0 : ℚ), 0, false,
          List.replicate 1600 (0 : ℚ), 16000, 4⟩ :
            AudioBufferManager ℚ).recording := by
  have hlen : 1600 ≤ (⟨List.replicate 4 (0 : ℚ), 0, false,
      List.replicate 1600 (0 : ℚ), 16000, 4⟩ :
        AudioBufferManager ℚ).recording.length := by
    show (1600 : ℕ) ≤ (List.replicate 1600 (0 : ℚ)).length
    rw [List.length_replicate]
  have hfull : (⟨10, List.replicate 10 [], true⟩ : Channel).cap ≤
      (⟨10, List.replicate 10 [], true⟩ : Channel).buf.length := by
    show (10 : ℕ) ≤ (List.replicate 10 ([] : List ℚ)).length
    rw [List.length_replicate]
  exact ⟨hlen, rfl, hfull,
    (result_send_blocks_when_full _ _ _ hlen).1 rfl hfull⟩

/-! ## Claim theorem: short VAD frames (C7) -/

/-- **C7**: a frame strictly shorter than the configured frame size is
rejected: `process` returns `(false, 0.0)` and the engine state — including
`smoothed_energy`, `voice_frames` and `silence_frames` — is exactly
unchanged. -/
theorem vad_short_frame_rejected (v : VadEngine) (frame : List ℚ)
    (h : frame.length < v.frame_size) : v.process frame = (v, false, 0) := by
  rw [VadEngine.process, if_pos h]

/-- **C7, witness**: the empty frame against a 480-sample engine. -/
theorem vad_short_frame_rejected_witness :
    ([] : List ℚ).length < (VadEngine.new (15/1000) 480).frame_size ∧
      (VadEngine.new (15/1000) 480).process [] =
        (VadEngine.new (15/1000) 480, false, 0) :=
  ⟨by decide, vad_short_frame_rejected _ _ (by decide)⟩

/-! ## Helper lemmas: VAD counter updates (C6) -/

/-- A full-length frame classified as silence increments the silence counter
and clears the voice counter exactly when the new silence count exceeds 10. -/
lemma process_full_not_voice (v : VadEngine) (f : List ℚ)
    (hlen : v.frame_size ≤ f.length) (hsil : (v.process f).2.1 = false) :
    (v.process f).1.silence_frames = v.silence_frames + 1 ∧
    (v.process f).1.voice_frames =
      (if 10 < v.silence_frames + 1 then 0 else v.voice_frames) ∧
    (v.process f).1.frame_size = v.frame_size := by
  have hnl : ¬ (f.length < v.frame_size) := not_lt.mpr hlen
  rw [VadEngine.process, if_neg hnl] at hsil ⊢
  by_cases hv : (v.threshold : ℝ) < v.newSmoothed f
  · rw [if_pos hv] at hsil
    simp at hsil
  · rw [if_neg hv]
    by_cases h10 : 10 < v.silence_frames + 1
    · rw [if_pos h10, if_pos h10]
      exact ⟨rfl, rfl, rfl⟩
    · rw [if_neg h10, if_neg h10]
      exact ⟨rfl, rfl, rfl⟩

/-- A full-length frame classified as voice increments the voice counter and
clears the silence counter. -/
lemma process_full_voice (v : VadEngine) (f : List ℚ)
    (hlen : v.frame_size ≤ f.length) (hvoi : (v.process f).2.1 = true) :
    (v.process f).1.silence_frames = 0 ∧
    (v.process f).1.voice_frames = v.voice_frames + 1 ∧
    (v.process f).1.frame_size = v.frame_size := by
  have hnl : ¬ (f.length < v.frame_size) := not_lt.mpr hlen
  rw [VadEngine.process, if_neg hnl] at hvoi ⊢
  by_cases hv : (v.threshold : ℝ) < v.newSmoothed f
  · rw [if_pos hv]
    exact ⟨rfl, rfl, rfl⟩
  · rw [if_neg hv] at hvoi
    by_cases h10 : 10 < v.silence_frames + 1
    · rw [if_pos h10] at hvoi
      simp at hvoi
    · rw [if_neg h10] at hvoi
      simp at hvoi

lemma processList_append (v : VadEngine) (a b : List (List ℚ)) :
    v.processList (a ++ b) = (v.processList a).processList b := by
  simp [VadEngine.processList, List.foldl_append]

lemma silentRun_append : ∀ (a b : List (List ℚ)) (v : VadEngine),
    SilentRun v (a ++ b) → SilentRun v a ∧ SilentRun (v.processList a) b
  | [], _, _, h => ⟨trivial, h⟩
  | f :: a, b, v, h => by
    obtain ⟨h1, h2, h3⟩ := h
    obtain ⟨ha, hb⟩ := silentRun_append a b (v.process f).1 h3
    exact ⟨⟨h1, h2, ha⟩, hb⟩

/-- Along a silent run that keeps the silence counter at 10 or below, the
voice counter is untouched and the silence counter counts the frames. -/
lemma silentRun_counters : ∀ (fs : List (List ℚ)) (v : VadEngine),
    SilentRun v fs → v.silence_frames + fs.length ≤ 10 →
    (v.processList fs).voice_frames = v.voice_frames ∧
    (v.processList fs).silence_frames = v.silence_frames + fs.length
  | [], v, _, _ => ⟨rfl, by simp [VadEngine.processList]⟩
  | f :: fs, v, hrun, hle => by
    obtain ⟨hlen, hsil, hrest⟩ := hrun
    obtain ⟨hs, hv, _⟩ := process_full_not_voice v f hlen hsil
    have h10 : ¬ (10 < v.silence_frames + 1) := by
      simp only [List.length_cons] at hle
      omega
    rw [if_neg h10] at hv
    have hle2 : (v.process f).1.silence_frames + fs.length ≤ 10 := by
      rw [hs]
      simp only [List.length_cons] at hle
      omega
    obtain ⟨ih1, ih2⟩ := silentRun_counters fs (v.process f).1 hrest hle2
    have hstep : v.processList (f :: fs) = ((v.process f).1).processList fs := rfl
    constructor
    · rw [hstep, ih1, hv]
    · rw [hstep, ih2, hs, List.length_cons]
      omega

/-! ## Claim theorem: VAD debounce (C6) -/

/-- **C6**: starting from any engine state, a voice-classified frame followed
by a run of silence-classified full-length frames leaves `voice_frames`
untouched (at its incremented value) for runs of up to 10 frames, and the
11th consecutive silent frame resets `voice_frames` to 0. -/
theorem vad_debounce (v : VadEngine) (f : List ℚ) (fs : List (List ℚ))
    (hlen : v.frame_size ≤ f.length)
    (hvoice : (v.process f).2.1 = true)
    (hrun : SilentRun (v.process f).1 fs) :
    (fs.length ≤ 10 →
      (((v.process f).1).processList fs).voice_frames = v.voice_frames + 1) ∧
    (fs.length = 11 →
      (((v.process f).1).processList fs).voice_frames = 0) := by
  obtain ⟨hs0, hv1, _⟩ := process_full_voice v f hlen hvoice
  constructor
  · intro hle
    obtain ⟨h1, _⟩ :=
      silentRun_counters fs (v.process f).1 hrun (by rw [hs0]; omega)
    rw [h1, hv1]
  · intro h11
    obtain ⟨g, hg⟩ : ∃ g, fs.drop 10 = [g] :=
      List.length_eq_one.mp (by rw [List.length_drop, h11])
    have hsplit : fs = fs.take 10 ++ [g] := by rw [← hg, List.take_append_drop]
    have hlen10 : (fs.take 10).length = 10 := by rw [List.length_take]; omega
    have hrun' : SilentRun (v.process f).1 (fs.take 10 ++ [g]) := by
      rw [← hsplit]; exact hrun
    obtain ⟨hrun10, hrun1⟩ := silentRun_append _ _ _ hrun'
    obtain ⟨hmid1, hmid2⟩ := silentRun_counters (fs.take 10) (v.process f).1
      hrun10 (by rw [hs0, hlen10])
    obtain ⟨hlen_g, hsil_g, _⟩ := hrun1
    obtain ⟨_, hvg, _⟩ := process_full_not_voice _ g hlen_g hsil_g
    have h10 : 10 <
        (((v.process f).1).processList (fs.take 10)).silence_frames + 1 := by
      rw [hmid2, hs0]
      omega
    rw [if_pos h10] at hvg
    have hfin : ((v.process f).1).processList fs =
        (((((v.process f).1).processList (fs.take 10)).process g)).1 := by
      conv_lhs => rw [hsplit]
      rw [processList_append]
      rfl
    rw [hfin, hvg]

/-- Evaluation of `process` on the 1-sample frame `[1]` from the fresh engine
with threshold 1/4: classified as voice. -/
lemma process_one_voice :
    ((VadEngine.new (1/4) 1).process [(1 : ℚ)]).2.1 = true ∧
    ((VadEngine.new (1/4) 1).process [(1 : ℚ)]).1.frame_size = 1 ∧
    ((VadEngine.new (1/4) 1).process [(1 : ℚ)]).1.smoothing_alpha = 3/10 ∧
    ((VadEngine.new (1/4) 1).process [(1 : ℚ)]).1.threshold = 1/4 ∧
    ((VadEngine.new (1/4) 1).process [(1 : ℚ)]).1.smoothed_energy =
      ((3/10 : ℚ) : ℝ) * 1 + (1 - ((3/10 : ℚ) : ℝ)) * 0 := by
  have hnl : ¬ (([(1 : ℚ)]).length < (VadEngine.new (1/4) 1).frame_size) := by
    simp [VadEngine.new]
  have henergy : (VadEngine.new (1/4) 1).frameEnergy [(1 : ℚ)] = 1 := by
    simp [VadEngine.frameEnergy, VadEngine.new]
  have hsm : (VadEngine.new (1/4) 1).newSmoothed [(1 : ℚ)] =
      ((3/10 : ℚ) : ℝ) * 1 + (1 - ((3/10 : ℚ) : ℝ)) * 0 := by
    rw [VadEngine.newSmoothed, henergy, Rat.cast_one, Real.sqrt_one]
    rfl
  have hcond : ((VadEngine.new (1/4) 1).threshold : ℝ) <
      (VadEngine.new (1/4) 1).newSmoothed [(1 : ℚ)] := by
    rw [hsm]
    show ((1/4 : ℚ) : ℝ) < ((3/10 : ℚ) : ℝ) * 1 + (1 - ((3/10 : ℚ) : ℝ)) * 0
    push_cast
    norm_num
  rw [VadEngine.process, if_neg hnl, if_pos hcond]
  exact ⟨rfl, rfl, rfl, rfl, hsm⟩

/-- Evaluation of `process` on the zero frame `[0]`: with a small enough
smoothed energy the frame is classified as silence and the EMA decays by the
factor `1 - alpha`. -/
lemma process_zero_not_voice (w : VadEngine) (hfs : w.frame_size = 1)
    (ha : w.smoothing_alpha = 3/10) (ht : 0 ≤ w.threshold)
    (hs : 0 ≤ w.smoothed_energy)
    (hle : w.smoothed_energy ≤ (10/7) * (w.threshold : ℝ)) :
    (w.process [(0 : ℚ)]).2.1 = false ∧
    (w.process [(0 : ℚ)]).1.smoothed_energy =
      (1 - ((3/10 : ℚ) : ℝ)) * w.smoothed_energy ∧
    (w.process [(0 : ℚ)]).1.frame_size = 1 ∧
    (w.process [(0 : ℚ)]).1.smoothing_alpha = 3/10 ∧
    (w.process [(0 : ℚ)]).1.threshold = w.threshold := by
  have hnl : ¬ (([(0 : ℚ)]).length < w.frame_size) := by simp [hfs]
  have henergy : w.frameEnergy [(0 : ℚ)] = 0 := by
    rw [VadEngine.frameEnergy, hfs]
    simp
  have hsm : w.newSmoothed [(0 : ℚ)] =
      (1 - ((3/10 : ℚ) : ℝ)) * w.smoothed_energy := by
    rw [VadEngine.newSmoothed, henergy, Rat.cast_zero, Real.sqrt_zero,
      mul_zero, zero_add, ha]
  have hcond : ¬ ((w.threshold : ℝ) < w.newSmoothed [(0 : ℚ)]) := by
    rw [hsm]
    push_cast
    linarith
  rw [VadEngine.process, if_neg hnl, if_neg hcond]
  by_cases h10 : 10 < w.silence_frames + 1
  · rw [if_pos h10]
    exact ⟨rfl, hsm, hfs, ha, rfl⟩
  · rw [if_neg h10]
    exact ⟨rfl, hsm, hfs, ha, rfl⟩

/-- Any number of zero frames forms a silent run from a decayed state. -/
lemma silentRun_zeros : ∀ (n : ℕ) (w : VadEngine), w.frame_size = 1 →
    w.smoothing_alpha = 3/10 → 0 ≤ w.threshold → 0 ≤ w.smoothed_energy →
    w.smoothed_energy ≤ (10/7) * (w.threshold : ℝ) →
    SilentRun w (List.replicate n [(0 : ℚ)])
  | 0, _, _, _, _, _, _ => trivial
  | n + 1, w, hfs, ha, ht, hs, hle => by
    rw [List.replicate_succ]
    obtain ⟨hb, hsm, hfs', ha', ht'⟩ := process_zero_not_voice w hfs ha ht hs hle
    refine ⟨by rw [hfs]; simp, hb, ?_⟩
    apply silentRun_zeros n _ hfs' ha'
    · rw [ht']
      exact ht
    · rw [hsm]
      have : (0 : ℝ) ≤ 1 - ((3/10 : ℚ) : ℝ) := by push_cast; norm_num
      exact mul_nonneg this hs
    · rw [hsm, ht']
      have hrel : (1 - ((3/10 : ℚ) : ℝ)) * w.smoothed_energy ≤ w.smoothed_energy := by
        have : (0 : ℝ) ≤ ((3/10 : ℚ) : ℝ) * w.smoothed_energy := by
          apply mul_nonneg _ hs
          push_cast
          norm_num
        linarith
      linarith

/-- **C6, witness**: threshold 1/4, a 1-sample voice frame of amplitude 1,
then 11 zero frames. -/
theorem vad_debounce_witness :
    (VadEngine.new (1/4) 1).frame_size ≤ ([(1 : ℚ)]).length ∧
    ((VadEngine.new (1/4) 1).process [(1 : ℚ)]).2.1 = true ∧
    SilentRun ((VadEngine.new (1/4) 1).process [(1 : ℚ)]).1
      (List.replicate 11 [(0 : ℚ)]) ∧
    (((List.replicate 11 [(0 : ℚ)]).length ≤ 10 →
        ((((VadEngine.new (1/4) 1).process [(1 : ℚ)]).1).processList
          (List.replicate 11 [(0 : ℚ)])).voice_frames =
          (VadEngine.new (1/4) 1).voice_frames + 1) ∧
      ((List.replicate 11 [(0 : ℚ)]).length = 11 →
        ((((VadEngine.new (1/4) 1).process [(1 : ℚ)]).1).processList
          (List.replicate 11 [(0 : ℚ)])).voice_frames = 0)) := by
  obtain ⟨hb, hfs, ha, ht, hsm⟩ := process_one_voice
  have hlen : (VadEngine.new (1/4) 1).frame_size ≤ ([(1 : ℚ)]).length := by
    simp [VadEngine.new]
  have hrun : SilentRun ((VadEngine.new (1/4) 1).process [(1 : ℚ)]).1
      (List.replicate 11 [(0 : ℚ)]) := by
    apply silentRun_zeros 11 _ hfs ha
    · rw [ht]
      norm_num
    · rw [hsm]
      push_cast
      norm_num
    · rw [hsm, ht]
      push_cast
      norm_num
  exact ⟨hlen, hb, hrun, vad_debounce _ _ _ hlen hb hrun⟩

/-! ## Claim theorems: per-frame dispatch in processing_loop (C3) -/

/-- Configuration with 1-sample frames, 1 ms pre-roll and a zero minimum
speech duration (so the sustained-voice condition fires immediately). -/
def cfgC3 : AlwaysListenConfig := ⟨1, 0, 2000, 15/1000, 30, 200, 1⟩

/-- Worker state at startup for `cfgC3`: listening, fresh buffers and VAD,
empty result channel. -/
def s0C3 : LoopState :=
  ⟨.Listening, AudioBufferManager.new ℚ 16000 1, VadEngine.new (15/1000) 1,
    ⟨10, [], true⟩⟩

/-- **C3, counterexample**: a single received chunk holding two frames.  The
transition to `Recording` fires on the first frame, yet the second frame is
still dispatched under the stale `Listening` snapshot: it is pushed into the
pre-roll and `start_recording` runs a **second** time — with no finalize in
between — refuting both "every frame is dispatched under the state current at
the moment that frame is processed" and "start_recording() is called exactly
once per utterance". -/
theorem state_snapshot_counterexample :
    chunkEvents (processChunk cfgC3 0 s0C3 [] [0, 0]) =
      [.pushedPreRoll, .startedRecording, .pushedRecording,
        .pushedPreRoll, .startedRecording, .pushedRecording] := by
  have hmv : min_voice_frames cfgC3 = 0 := by
    rw [min_voice_frames]
    norm_num [cfgC3]
  have hfsamp : cfgC3.frame_samples = 1 := rfl
  simp [processChunk, processFrames, stepFrame, chunkEvents, s0C3, hmv, hfsamp,
    AudioBufferManager.new, AudioBufferManager.push_to_pre_roll,
    AudioBufferManager.pushSample, AudioBufferManager.start_recording,
    AudioBufferManager.push_to_recording, AudioBufferManager.orderedPreRoll,
    VadEngine.has_sustained_voice, List.foldlM_cons, List.foldlM_nil]

/-- **C3 (amended)**: `processing_loop` reads the shared state once per
received chunk and dispatches every frame of the chunk under that snapshot
(`processChunk` passes `s.st` to every `stepFrame`).  Under a `Recording`
snapshot a frame on which no finalize condition fires is pushed into the
recording buffer, the pre-roll is untouched and `start_recording` does not
run; under a `Listening` snapshot a frame on which the sustained-voice
condition fires is pushed into the pre-roll and `start_recording` runs —
once per such frame, hence possibly repeatedly within the chunk in which the
transition fires, because the snapshot is refreshed only on the next chunk. -/
theorem chunk_start_state_dispatch (cfg : AlwaysListenConfig) (now since : ℕ)
    (s : LoopState) (frame : List ℚ) (vr : VadEngine × Bool × ℝ)
    (hvr : s.vad.process frame = vr) :
    (∀ pending chunk, processChunk cfg now s pending chunk =
      processFrames cfg now s.st s (pending ++ chunk)) ∧
    (¬ cfg.max_utterance_seconds <
        (s.mgr.push_to_recording frame).recording_duration →
      vr.1.silence_frames < silence_frames_threshold cfg →
      stepFrame cfg now (.Recording since) s frame =
        .ok (⟨s.st, s.mgr.push_to_recording frame, vr.1, s.chan⟩,
          [.pushedRecording]) ∧
      (s.mgr.push_to_recording frame).pre_roll = s.mgr.pre_roll) ∧
    (∀ mgr1, s.mgr.push_to_pre_roll frame = some mgr1 →
      min_voice_frames cfg ≤ vr.1.voice_frames →
      stepFrame cfg now .Listening s frame =
        .ok (⟨.Recording now, mgr1.start_recording.2.push_to_recording frame,
          vr.1, s.chan⟩,
          [.pushedPreRoll, .startedRecording, .pushedRecording])) := by
  refine ⟨fun _ _ => rfl, ?_, ?_⟩
  · intro hmax hsil
    have hsilb : vr.1.has_sustained_silence (silence_frames_threshold cfg) =
        false := by
      rw [VadEngine.has_sustained_silence]
      simp only [decide_eq_false_iff_not]
      omega
    constructor
    · simp only [stepFrame, hvr]
      rw [if_neg hmax, if_neg (by rw [hsilb]; simp)]
    · rfl
  · intro mgr1 hpush hm
    have hvoice : vr.1.has_sustained_voice (min_voice_frames cfg) = true := by
      rw [VadEngine.has_sustained_voice]
      simpa using hm
    simp only [stepFrame, hvr, hpush]
    rw [if_pos hvoice]

/-- **C3 (amended), witness**: concrete instances of the Recording-dispatch
and Listening-transition cases under `cfgC3`. -/
theorem chunk_start_state_dispatch_witness :
    ((⟨.Recording 0, AudioBufferManager.new ℚ 16000 1,
        VadEngine.new (15/1000) 1, ⟨10, [], true⟩⟩ : LoopState).vad.process [0] =
      (VadEngine.new (15/1000) 1).process [0]) ∧
    (¬ cfgC3.max_utterance_seconds <
        ((AudioBufferManager.new ℚ 16000 1).push_to_recording [0]).recording_duration) ∧
    ((VadEngine.new (15/1000) 1).process [0]).1.silence_frames <
      silence_frames_threshold cfgC3 ∧
    (stepFrame cfgC3 0 (.Recording 0)
        ⟨.Recording 0, AudioBufferManager.new ℚ 16000 1,
          VadEngine.new (15/1000) 1, ⟨10, [], true⟩⟩ [0] =
      .ok (⟨.Recording 0, (AudioBufferManager.new ℚ 16000 1).push_to_recording [0],
        ((VadEngine.new (15/1000) 1).process [0]).1, ⟨10, [], true⟩⟩,
        [.pushedRecording]) ∧
      ((AudioBufferManager.new ℚ 16000 1).push_to_recording [0]).pre_roll =
        (AudioBufferManager.new ℚ 16000 1).pre_roll) ∧
    ((AudioBufferManager.new ℚ 16000 1).push_to_pre_roll [0] =
      some ⟨(List.replicate 16 (0 : ℚ)).set 0 0, 1, false, [], 16000, 16⟩) ∧
    min_voice_frames cfgC3 ≤ ((VadEngine.new (15/1000) 1).process [0]).1.voice_frames ∧
    stepFrame cfgC3 0 .Listening
        ⟨.Listening, AudioBufferManager.new ℚ 16000 1,
          VadEngine.new (15/1000) 1, ⟨10, [], true⟩⟩ [0] =
      .ok (⟨.Recording 0,
        ((⟨(List.replicate 16 (0 : ℚ)).set 0 0, 1, false, [], 16000, 16⟩ :
          AudioBufferManager ℚ).start_recording.2).push_to_recording [0],
        ((VadEngine.new (15/1000) 1).process [0]).1, ⟨10, [], true⟩⟩,
        [.pushedPreRoll, .startedRecording, .pushedRecording]) := by
  have hz := process_zero_not_voice (VadEngine.new (15/1000) 1) rfl rfl
    (by show (0 : ℚ) ≤ 15/1000; norm_num) le_rfl
    (by show (0 : ℝ) ≤ (10/7) * ((15/1000 : ℚ) : ℝ); push_cast; norm_num)
  have hcnt := process_full_not_voice (VadEngine.new (15/1000) 1) [0]
    (by simp [VadEngine.new]) hz.1
  have hsft : silence_frames_threshold cfgC3 = 32000 := by
    rw [silence_frames_threshold]
    have h1 : ((cfgC3.post_silence_duration_ms : ℕ) : ℚ) / 1000 * 16000 = 32000 := by
      norm_num [cfgC3]
    rw [h1]
    have h2 : ⌊(32000 : ℚ)⌋ = 32000 := by
      rw [Int.floor_eq_iff] <;> norm_num
    rw [h2]
    rfl
  have hmv : min_voice_frames cfgC3 = 0 := by
    rw [min_voice_frames]
    norm_num [cfgC3]
  have hsil : ((VadEngine.new (15/1000) 1).process [0]).1.silence_frames <
      silence_frames_threshold cfgC3 := by
    rw [hsft, hcnt.1]
    show (VadEngine.new (15/1000) 1).silence_frames + 1 < 32000
    norm_num [VadEngine.new]
  have hmax : ¬ cfgC3.max_utterance_seconds <
      ((AudioBufferManager.new ℚ 16000 1).push_to_recording [0]).recording_duration := by
    show ¬ (30 : ℚ) < ([] ++ [(0 : ℚ)]).length / ((16000 : ℕ) : ℚ)
    push_cast
    norm_num
  have hpush : (AudioBufferManager.new ℚ 16000 1).push_to_pre_roll [0] =
      some ⟨(List.replicate 16 (0 : ℚ)).set 0 0, 1, false, [], 16000, 16⟩ := rfl
  have hm : min_voice_frames cfgC3 ≤
      ((VadEngine.new (15/1000) 1).process [0]).1.voice_frames := by
    rw [hmv]
    exact Nat.zero_le _
  have hthm := chunk_start_state_dispatch cfgC3 0 0
    ⟨.Recording 0, AudioBufferManager.new ℚ 16000 1,
      VadEngine.new (15/1000) 1, ⟨10, [], true⟩⟩ [0]
    ((VadEngine.new (15/1000) 1).process [0]) rfl
  have hthm2 := chunk_start_state_dispatch cfgC3 0 0
    ⟨.Listening, AudioBufferManager.new ℚ 16000 1,
      VadEngine.new (15/1000) 1, ⟨10, [], true⟩⟩ [0]
    ((VadEngine.new (15/1000) 1).process [0]) rfl
  exact ⟨rfl, hmax, hsil, hthm.2.1 hmax hsil, hpush, hm,
    hthm2.2.2 _ hpush hm⟩
